import Mathlib

/-!
Verification of the Mailbox contract binding (`rust/main/cli/src/mailbox.rs`)
against its ABI-codec specification.

The generated binding delegates the per-schema byte codec to its codec layer
(the spec's Value Encoder / Value Decoder, §4.2-§4.3); that layer is modelled
here from the specification.  The selector constants, the declaration order of
the call and event variants, the sequential first-match decode chains
(`MailboxCalls::decode`, `MailboxEvents::decode_log`) and the encode dispatch
are translated directly from the source file.

Conventions: a byte is a `Nat` (valid when `< 256`); a 32-byte ABI word is a
`Nat` (valid when `< 2 ^ 256`); `address` values are `Nat < 2 ^ 160`;
`bytes32` values are the `Nat` value of the full word; dynamic `bytes` are
`List Nat`.
-/

namespace Mailbox

/-- Interpret a byte list as a big-endian natural number. -/
def wordToNat (bs : List Nat) : Nat := bs.foldl (fun acc b => acc * 256 + b) 0

/-- Big-endian encoding of `n % 256 ^ k` on exactly `k` bytes. -/
def beBytes : Nat → Nat → List Nat
  | 0, _ => []
  | k + 1, n => beBytes k (n / 256) ++ [n % 256]

/-- One 32-byte ABI word, big-endian. -/
def be256 (n : Nat) : List Nat := beBytes 32 n

/-- Right-pad a byte string with zeros to a multiple of 32 bytes
(ABI tail padding for dynamic `bytes`). -/
def padRight32 (bs : List Nat) : List Nat :=
  bs ++ List.replicate ((32 - bs.length % 32) % 32) 0

theorem beBytes_length (k n : Nat) : (beBytes k n).length = k := by
  induction k generalizing n with
  | zero => rfl
  | succ k ih => simp [beBytes, ih]

theorem be256_length (n : Nat) : (be256 n).length = 32 := beBytes_length 32 n

theorem padRight32_length (bs : List Nat) :
    (padRight32 bs).length = bs.length + (32 - bs.length % 32) % 32 := by
  simp [padRight32]

theorem wordToNat_append (a b : List Nat) :
    wordToNat (a ++ b) = wordToNat a * 256 ^ b.length + wordToNat b := by
  induction b using List.reverseRecOn with
  | nil => simp [wordToNat]
  | append_singleton b x ih =>
    simp [wordToNat, List.foldl_append] at *
    rw [ih]
    ring

theorem wordToNat_beBytes (k n : Nat) : wordToNat (beBytes k n) = n % 256 ^ k := by
  induction k generalizing n with
  | zero => simp [beBytes, wordToNat, Nat.mod_one]
  | succ k ih =>
    have h1 : wordToNat (beBytes (k + 1) n)
        = wordToNat (beBytes k (n / 256)) * 256 + n % 256 := by
      simp [beBytes, wordToNat_append, wordToNat]
    rw [h1, ih]
    have hM : 0 < 256 ^ k := Nat.pos_pow_of_pos k (by norm_num)
    have hmod : n / 256 % 256 ^ k * 256 = n / 256 * 256 % (256 ^ k * 256) :=
      (Nat.mul_mod_mul_right 256 (n / 256) (256 ^ k)).symm
    have hlt : n / 256 % 256 ^ k < 256 ^ k := Nat.mod_lt _ hM
    have hr : n % 256 < 256 := Nat.mod_lt _ (by norm_num)
    have hpow : 256 ^ (k + 1) = 256 ^ k * 256 := by ring
    rw [hpow]
    have hsplit : n = n / 256 * 256 + n % 256 := by omega
    conv_rhs => rw [hsplit]
    rw [Nat.add_mod, Nat.mul_mod_mul_right]
    have hsmall : n / 256 % 256 ^ k * 256 + n % 256 % (256 ^ k * 256) < 256 ^ k * 256 := by
      have h2 : n % 256 % (256 ^ k * 256) ≤ n % 256 := Nat.mod_le _ _
      omega
    rw [Nat.mod_eq_of_lt hsmall]
    have h3 : n % 256 % (256 ^ k * 256) = n % 256 := by
      apply Nat.mod_eq_of_lt
      calc n % 256 < 256 := hr
        _ ≤ 256 ^ k * 256 := by nlinarith
    omega

theorem wordToNat_be256 {n : Nat} (h : n < 2 ^ 256) : wordToNat (be256 n) = n := by
  have h2 : (256 : Nat) ^ 32 = 2 ^ 256 := by norm_num
  rw [be256, wordToNat_beBytes, h2, Nat.mod_eq_of_lt h]

/-- Modelled from the spec (§3, §4.1): the ABI type descriptors used by the
Mailbox interface.  The interface only uses elementary `uintN`, `address`,
the fixed `bytes32` and dynamic `bytes`; the other descriptor variants of the
spec (arrays, tuples, strings) never occur in this contract and are omitted. -/
inductive ParamType
  | uint (bits : Nat)
  | address
  | bytes32
  | dynBytes
deriving DecidableEq

/-- Modelled from the spec (§3): a typed value tree restricted to the shapes
the Mailbox interface uses.  `uintV`/`addressV`/`bytes32V` carry the numeric
value of the 32-byte word; `dynBytesV` carries the raw byte sequence. -/
inductive ParamValue
  | uintV (v : Nat)
  | addressV (v : Nat)
  | bytes32V (v : Nat)
  | dynBytesV (bs : List Nat)
deriving DecidableEq

/-- Whether a value occupies its head slot directly (static) or through an
offset into the tail region (dynamic), per spec §4.2. -/
def ParamValue.isDynamic : ParamValue → Bool
  | .dynBytesV _ => true
  | _ => false

/-- The 32-byte head word of a static value: integers and addresses
right-aligned, `bytes32` is the word itself (spec §4.2). -/
def ParamValue.headWord : ParamValue → Nat
  | .uintV v => v
  | .addressV v => v
  | .bytes32V v => v
  | .dynBytesV _ => 0

/-- The tail bytes of a dynamic value: 32-byte length word followed by the
zero-padded content (spec §4.2); static values contribute no tail. -/
def ParamValue.tailBytes : ParamValue → List Nat
  | .dynBytesV bs => be256 bs.length ++ padRight32 bs
  | _ => []

/-- Modelled from the spec (§4.2): ABI head/tail encoding.  `off` is the byte
offset (relative to the start of the block) at which the next dynamic tail
will be written.  Returns the pair (heads of the remaining values, their
concatenated tails). -/
def encodeAux : List ParamValue → Nat → List Nat × List Nat
  | [], _ => ([], [])
  | v :: rest, off =>
    if v.isDynamic then
      let t := v.tailBytes
      let p := encodeAux rest (off + t.length)
      (be256 off ++ p.1, t ++ p.2)
    else
      let p := encodeAux rest off
      (be256 v.headWord ++ p.1, p.2)

/-- Modelled from the spec (§4.2): `encode(schema_inputs, values)`.  Every
top-level value owns one 32-byte head slot; dynamic tails follow the head
region in argument order, with each head offset counted from the start of the
whole block. -/
def encodeParams (vs : List ParamValue) : List Nat :=
  let p := encodeAux vs (32 * vs.length)
  p.1 ++ p.2

/-- Read the 32-byte word at byte position `pos`; fails when fewer than 32
bytes remain (spec §4.3: data-too-short is a decoding error, never an
out-of-bounds read). -/
def readWord (data : List Nat) (pos : Nat) : Option Nat :=
  if pos + 32 ≤ data.length then some (wordToNat ((data.drop pos).take 32)) else none

/-- Modelled from the spec (§4.3): decode the value of type `t` whose head
slot is `slot`.  Static types read their word in place (addresses keep the
low 20 bytes); dynamic `bytes` follow the head offset to a length-prefixed
tail, validating that offset and declared length stay inside `data`. -/
def decodeParamAt (data : List Nat) (t : ParamType) (slot : Nat) : Option ParamValue :=
  match t with
  | .uint _bits => (readWord data (32 * slot)).map ParamValue.uintV
  | .address => (readWord data (32 * slot)).map (fun w => ParamValue.addressV (w % 2 ^ 160))
  | .bytes32 => (readWord data (32 * slot)).map ParamValue.bytes32V
  | .dynBytes =>
    match readWord data (32 * slot) with
    | none => none
    | some off =>
      match readWord data off with
      | none => none
      | some len =>
        if off + 32 + len ≤ data.length then
          some (ParamValue.dynBytesV ((data.drop (off + 32)).take len))
        else none

/-- Decode the remaining descriptors, the next one sitting at head slot
`slot` (spec §4.3). -/
def decodeParamsAux (data : List Nat) : List ParamType → Nat → Option (List ParamValue)
  | [], _ => some []
  | t :: ts, slot =>
    match decodeParamAt data t slot with
    | none => none
    | some v =>
      match decodeParamsAux data ts (slot + 1) with
      | none => none
      | some vs => some (v :: vs)

/-- Modelled from the spec (§4.3): `decode(schema_outputs, data)`.  Trailing
bytes after the described region are tolerated, mirroring the lenient word
reader of the codec the binding links against. -/
def decodeParams (tys : List ParamType) (data : List Nat) : Option (List ParamValue) :=
  decodeParamsAux data tys 0

/-- Error type of the decode chains.  The source returns
`ethers::core::abi::Error::InvalidData` from both chains; `decodingError`
stands for the other error variants of that type, which the chains never
produce themselves. -/
inductive AbiError
  | invalidData
  | decodingError
deriving DecidableEq

instance {ε α : Type} [DecidableEq ε] [DecidableEq α] : DecidableEq (Except ε α) := fun x y =>
  match x, y with
  | .ok a, .ok b =>
    if h : a = b then isTrue (by rw [h]) else isFalse (by intro hc; cases hc; exact h rfl)
  | .error a, .error b =>
    if h : a = b then isTrue (by rw [h]) else isFalse (by intro hc; cases hc; exact h rfl)
  | .ok _, .error _ => isFalse (by intro hc; cases hc)
  | .error _, .ok _ => isFalse (by intro hc; cases hc)

/-- Container for the input of `VERSION()`, selector `[255, 161, 173, 116]`. -/
structure VersionCall
  deriving DecidableEq

/-- Container for the input of `defaultHook()`, selector `[61, 18, 80, 183]`. -/
structure DefaultHookCall
  deriving DecidableEq

/-- Container for the input of `defaultIsm()`, selector `[110, 95, 81, 110]`. -/
structure DefaultIsmCall
  deriving DecidableEq

/-- Container for the input of `delivered(bytes32)`, selector `[228, 149, 241, 212]`. -/
structure DeliveredCall where
  id : Nat
  deriving DecidableEq

/-- Container for the input of `deployedBlock()`, selector `[130, 234, 123, 254]`. -/
structure DeployedBlockCall
  deriving DecidableEq

/-- Container for the input of `dispatch(uint32,bytes32,bytes,bytes,address)`,
selector `[16, 184, 61, 192]`. -/
structure Dispatch2Call where
  destination_domain : Nat
  recipient_address : Nat
  message_body : List Nat
  metadata : List Nat
  hook : Nat
  deriving DecidableEq

/-- Container for the input of `dispatch(uint32,bytes32,bytes,bytes)`,
selector `[72, 174, 232, 212]`. -/
structure Dispatch1Call where
  destination_domain : Nat
  recipient_address : Nat
  message_body : List Nat
  hook_metadata : List Nat
  deriving DecidableEq

/-- Container for the input of `dispatch(uint32,bytes32,bytes)`,
selector `[250, 49, 222, 1]`. -/
structure Dispatch0Call where
  destination_domain : Nat
  recipient_address : Nat
  message_body : List Nat
  deriving DecidableEq

/-- Container for the input of `initialize(address,address,address,address)`,
selector `[248, 200, 118, 94]`. -/
structure InitializeCall where
  owner : Nat
  default_ism : Nat
  default_hook : Nat
  required_hook : Nat
  deriving DecidableEq

/-- Container for the input of `latestDispatchedId()`, selector `[19, 79, 187, 79]`. -/
structure LatestDispatchedIdCall
  deriving DecidableEq

/-- Container for the input of `localDomain()`, selector `[141, 54, 56, 244]`. -/
structure LocalDomainCall
  deriving DecidableEq

/-- Container for the input of `nonce()`, selector `[175, 254, 208, 224]`. -/
structure NonceCall
  deriving DecidableEq

/-- Container for the input of `owner()`, selector `[141, 165, 203, 91]`. -/
structure OwnerCall
  deriving DecidableEq

/-- Container for the input of `process(bytes,bytes)`, selector `[124, 57, 209, 48]`. -/
structure ProcessCall where
  metadata : List Nat
  message : List Nat
  deriving DecidableEq

/-- Container for the input of `processedAt(bytes32)`, selector `[7, 162, 253, 161]`. -/
structure ProcessedAtCall where
  id : Nat
  deriving DecidableEq

/-- Container for the input of `processor(bytes32)`, selector `[93, 31, 229, 169]`. -/
structure ProcessorCall where
  id : Nat
  deriving DecidableEq

/-- Container for the input of `quoteDispatch(uint32,bytes32,bytes,bytes,address)`,
selector `[129, 210, 234, 149]`. -/
structure QuoteDispatchWithDestinationDomainAndRecipientAddressAndMetadataCall where
  destination_domain : Nat
  recipient_address : Nat
  message_body : List Nat
  metadata : List Nat
  hook : Nat
  deriving DecidableEq

/-- Container for the input of `quoteDispatch(uint32,bytes32,bytes)`,
selector `[156, 66, 189, 24]`. -/
structure QuoteDispatchCall where
  destination_domain : Nat
  recipient_address : Nat
  message_body : List Nat
  deriving DecidableEq

/-- Container for the input of `quoteDispatch(uint32,bytes32,bytes,bytes)`,
selector `[247, 204, 211, 33]`. -/
structure QuoteDispatchWithDestinationDomainAndRecipientAddressAndDefaultHookMetadataCall where
  destination_domain : Nat
  recipient_address : Nat
  message_body : List Nat
  default_hook_metadata : List Nat
  deriving DecidableEq

/-- Container for the input of `recipientIsm(address)`, selector `[231, 15, 72, 172]`. -/
structure RecipientIsmCall where
  recipient : Nat
  deriving DecidableEq

/-- Container for the input of `renounceOwnership()`, selector `[113, 80, 24, 166]`. -/
structure RenounceOwnershipCall
  deriving DecidableEq

/-- Container for the input of `requiredHook()`, selector `[214, 208, 138, 9]`. -/
structure RequiredHookCall
  deriving DecidableEq

/-- Container for the input of `setDefaultHook(address)`, selector `[153, 176, 72, 9]`. -/
structure SetDefaultHookCall where
  hook : Nat
  deriving DecidableEq

/-- Container for the input of `setDefaultIsm(address)`, selector `[247, 148, 104, 122]`. -/
structure SetDefaultIsmCall where
  module : Nat
  deriving DecidableEq

/-- Container for the input of `setRequiredHook(address)`, selector `[20, 38, 183, 244]`. -/
structure SetRequiredHookCall where
  hook : Nat
  deriving DecidableEq

/-- Container for the input of `transferOwnership(address)`, selector `[242, 253, 227, 139]`. -/
structure TransferOwnershipCall where
  new_owner : Nat
  deriving DecidableEq

/-- The call enum of the binding, variants in source declaration order
(src lines 970-1001). -/
inductive MailboxCalls
  | Version (e : VersionCall)
  | DefaultHook (e : DefaultHookCall)
  | DefaultIsm (e : DefaultIsmCall)
  | Delivered (e : DeliveredCall)
  | DeployedBlock (e : DeployedBlockCall)
  | Dispatch2 (e : Dispatch2Call)
  | Dispatch1 (e : Dispatch1Call)
  | Dispatch0 (e : Dispatch0Call)
  | Initialize (e : InitializeCall)
  | LatestDispatchedId (e : LatestDispatchedIdCall)
  | LocalDomain (e : LocalDomainCall)
  | Nonce (e : NonceCall)
  | Owner (e : OwnerCall)
  | Process (e : ProcessCall)
  | ProcessedAt (e : ProcessedAtCall)
  | Processor (e : ProcessorCall)
  | QuoteDispatchWithDestinationDomainAndRecipientAddressAndMetadata
      (e : QuoteDispatchWithDestinationDomainAndRecipientAddressAndMetadataCall)
  | QuoteDispatch (e : QuoteDispatchCall)
  | QuoteDispatchWithDestinationDomainAndRecipientAddressAndDefaultHookMetadata
      (e : QuoteDispatchWithDestinationDomainAndRecipientAddressAndDefaultHookMetadataCall)
  | RecipientIsm (e : RecipientIsmCall)
  | RenounceOwnership (e : RenounceOwnershipCall)
  | RequiredHook (e : RequiredHookCall)
  | SetDefaultHook (e : SetDefaultHookCall)
  | SetDefaultIsm (e : SetDefaultIsmCall)
  | SetRequiredHook (e : SetRequiredHookCall)
  | TransferOwnership (e : TransferOwnershipCall)
deriving DecidableEq

/-- One tag per registered call schema, named after the corresponding
`MailboxCalls` variant. -/
inductive CallKind
  | Version
  | DefaultHook
  | DefaultIsm
  | Delivered
  | DeployedBlock
  | Dispatch2
  | Dispatch1
  | Dispatch0
  | Initialize
  | LatestDispatchedId
  | LocalDomain
  | Nonce
  | Owner
  | Process
  | ProcessedAt
  | Processor
  | QuoteDispatchMeta
  | QuoteDispatch
  | QuoteDispatchDefaultHookMeta
  | RecipientIsm
  | RenounceOwnership
  | RequiredHook
  | SetDefaultHook
  | SetDefaultIsm
  | SetRequiredHook
  | TransferOwnership
deriving DecidableEq, Fintype

/-- The 4-byte function selectors, byte for byte the `method_hash` arrays of
the source (src lines 54-331). -/
def CallKind.selector : CallKind → List Nat
  | .Version => [255, 161, 173, 116]
  | .DefaultHook => [61, 18, 80, 183]
  | .DefaultIsm => [110, 95, 81, 110]
  | .Delivered => [228, 149, 241, 212]
  | .DeployedBlock => [130, 234, 123, 254]
  | .Dispatch2 => [16, 184, 61, 192]
  | .Dispatch1 => [72, 174, 232, 212]
  | .Dispatch0 => [250, 49, 222, 1]
  | .Initialize => [248, 200, 118, 94]
  | .LatestDispatchedId => [19, 79, 187, 79]
  | .LocalDomain => [141, 54, 56, 244]
  | .Nonce => [175, 254, 208, 224]
  | .Owner => [141, 165, 203, 91]
  | .Process => [124, 57, 209, 48]
  | .ProcessedAt => [7, 162, 253, 161]
  | .Processor => [93, 31, 229, 169]
  | .QuoteDispatchMeta => [129, 210, 234, 149]
  | .QuoteDispatch => [156, 66, 189, 24]
  | .QuoteDispatchDefaultHookMeta => [247, 204, 211, 33]
  | .RecipientIsm => [231, 15, 72, 172]
  | .RenounceOwnership => [113, 80, 24, 166]
  | .RequiredHook => [214, 208, 138, 9]
  | .SetDefaultHook => [153, 176, 72, 9]
  | .SetDefaultIsm => [247, 148, 104, 122]
  | .SetRequiredHook => [20, 38, 183, 244]
  | .TransferOwnership => [242, 253, 227, 139]

/-- The argument descriptors of each call schema, from the `abi = "..."`
signatures on the container structs (src lines 591-968). -/
def CallKind.paramTypes : CallKind → List ParamType
  | .Version => []
  | .DefaultHook => []
  | .DefaultIsm => []
  | .Delivered => [.bytes32]
  | .DeployedBlock => []
  | .Dispatch2 => [.uint 32, .bytes32, .dynBytes, .dynBytes, .address]
  | .Dispatch1 => [.uint 32, .bytes32, .dynBytes, .dynBytes]
  | .Dispatch0 => [.uint 32, .bytes32, .dynBytes]
  | .Initialize => [.address, .address, .address, .address]
  | .LatestDispatchedId => []
  | .LocalDomain => []
  | .Nonce => []
  | .Owner => []
  | .Process => [.dynBytes, .dynBytes]
  | .ProcessedAt => [.bytes32]
  | .Processor => [.bytes32]
  | .QuoteDispatchMeta => [.uint 32, .bytes32, .dynBytes, .dynBytes, .address]
  | .QuoteDispatch => [.uint 32, .bytes32, .dynBytes]
  | .QuoteDispatchDefaultHookMeta => [.uint 32, .bytes32, .dynBytes, .dynBytes]
  | .RecipientIsm => [.address]
  | .RenounceOwnership => []
  | .RequiredHook => []
  | .SetDefaultHook => [.address]
  | .SetDefaultIsm => [.address]
  | .SetRequiredHook => [.address]
  | .TransferOwnership => [.address]

/-- The schema a call value belongs to. -/
def MailboxCalls.kindOf : MailboxCalls → CallKind
  | .Version _ => .Version
  | .DefaultHook _ => .DefaultHook
  | .DefaultIsm _ => .DefaultIsm
  | .Delivered _ => .Delivered
  | .DeployedBlock _ => .DeployedBlock
  | .Dispatch2 _ => .Dispatch2
  | .Dispatch1 _ => .Dispatch1
  | .Dispatch0 _ => .Dispatch0
  | .Initialize _ => .Initialize
  | .LatestDispatchedId _ => .LatestDispatchedId
  | .LocalDomain _ => .LocalDomain
  | .Nonce _ => .Nonce
  | .Owner _ => .Owner
  | .Process _ => .Process
  | .ProcessedAt _ => .ProcessedAt
  | .Processor _ => .Processor
  | .QuoteDispatchWithDestinationDomainAndRecipientAddressAndMetadata _ => .QuoteDispatchMeta
  | .QuoteDispatch _ => .QuoteDispatch
  | .QuoteDispatchWithDestinationDomainAndRecipientAddressAndDefaultHookMetadata _ =>
      .QuoteDispatchDefaultHookMeta
  | .RecipientIsm _ => .RecipientIsm
  | .RenounceOwnership _ => .RenounceOwnership
  | .RequiredHook _ => .RequiredHook
  | .SetDefaultHook _ => .SetDefaultHook
  | .SetDefaultIsm _ => .SetDefaultIsm
  | .SetRequiredHook _ => .SetRequiredHook
  | .TransferOwnership _ => .TransferOwnership

/-- The argument values of a call, in declared order, as codec values. -/
def MailboxCalls.argVals : MailboxCalls → List ParamValue
  | .Version _ => []
  | .DefaultHook _ => []
  | .DefaultIsm _ => []
  | .Delivered e => [.bytes32V e.id]
  | .DeployedBlock _ => []
  | .Dispatch2 e => [.uintV e.destination_domain, .bytes32V e.recipient_address,
      .dynBytesV e.message_body, .dynBytesV e.metadata, .addressV e.hook]
  | .Dispatch1 e => [.uintV e.destination_domain, .bytes32V e.recipient_address,
      .dynBytesV e.message_body, .dynBytesV e.hook_metadata]
  | .Dispatch0 e => [.uintV e.destination_domain, .bytes32V e.recipient_address,
      .dynBytesV e.message_body]
  | .Initialize e => [.addressV e.owner, .addressV e.default_ism,
      .addressV e.default_hook, .addressV e.required_hook]
  | .LatestDispatchedId _ => []
  | .LocalDomain _ => []
  | .Nonce _ => []
  | .Owner _ => []
  | .Process e => [.dynBytesV e.metadata, .dynBytesV e.message]
  | .ProcessedAt e => [.bytes32V e.id]
  | .Processor e => [.bytes32V e.id]
  | .QuoteDispatchWithDestinationDomainAndRecipientAddressAndMetadata e =>
      [.uintV e.destination_domain, .bytes32V e.recipient_address,
       .dynBytesV e.message_body, .dynBytesV e.metadata, .addressV e.hook]
  | .QuoteDispatch e => [.uintV e.destination_domain, .bytes32V e.recipient_address,
      .dynBytesV e.message_body]
  | .QuoteDispatchWithDestinationDomainAndRecipientAddressAndDefaultHookMetadata e =>
      [.uintV e.destination_domain, .bytes32V e.recipient_address,
       .dynBytesV e.message_body, .dynBytesV e.default_hook_metadata]
  | .RecipientIsm e => [.addressV e.recipient]
  | .RenounceOwnership _ => []
  | .RequiredHook _ => []
  | .SetDefaultHook e => [.addressV e.hook]
  | .SetDefaultIsm e => [.addressV e.module]
  | .SetRequiredHook e => [.addressV e.hook]
  | .TransferOwnership e => [.addressV e.new_owner]

/-- The word carried by a static codec value (0 for dynamic bytes). -/
def ParamValue.asWord : ParamValue → Nat
  | .uintV v => v
  | .addressV v => v
  | .bytes32V v => v
  | .dynBytesV _ => 0

/-- The byte sequence carried by a dynamic codec value ([] for static ones). -/
def ParamValue.asBytes : ParamValue → List Nat
  | .dynBytesV bs => bs
  | _ => []

/-- The `i`-th decoded word of an argument list. -/
def argW (vs : List ParamValue) (i : Nat) : Nat := (vs.getD i (.uintV 0)).asWord

/-- The `i`-th decoded byte sequence of an argument list. -/
def argB (vs : List ParamValue) (i : Nat) : List Nat := (vs.getD i (.uintV 0)).asBytes

/-- Build the typed call record of a schema from its decoded argument list.
This is the detokenization step of the binding: on a value list produced by
`decodeParams` with the schema's own descriptors it reconstructs every field
exactly (the defaults of `argW`/`argB` are never exercised there). -/
def CallKind.buildCall : CallKind → List ParamValue → MailboxCalls
  | .Version, _ => .Version ⟨⟩
  | .DefaultHook, _ => .DefaultHook ⟨⟩
  | .DefaultIsm, _ => .DefaultIsm ⟨⟩
  | .Delivered, vs => .Delivered ⟨argW vs 0⟩
  | .DeployedBlock, _ => .DeployedBlock ⟨⟩
  | .Dispatch2, vs => .Dispatch2 ⟨argW vs 0, argW vs 1, argB vs 2, argB vs 3, argW vs 4⟩
  | .Dispatch1, vs => .Dispatch1 ⟨argW vs 0, argW vs 1, argB vs 2, argB vs 3⟩
  | .Dispatch0, vs => .Dispatch0 ⟨argW vs 0, argW vs 1, argB vs 2⟩
  | .Initialize, vs => .Initialize ⟨argW vs 0, argW vs 1, argW vs 2, argW vs 3⟩
  | .LatestDispatchedId, _ => .LatestDispatchedId ⟨⟩
  | .LocalDomain, _ => .LocalDomain ⟨⟩
  | .Nonce, _ => .Nonce ⟨⟩
  | .Owner, _ => .Owner ⟨⟩
  | .Process, vs => .Process ⟨argB vs 0, argB vs 1⟩
  | .ProcessedAt, vs => .ProcessedAt ⟨argW vs 0⟩
  | .Processor, vs => .Processor ⟨argW vs 0⟩
  | .QuoteDispatchMeta, vs =>
      .QuoteDispatchWithDestinationDomainAndRecipientAddressAndMetadata
        ⟨argW vs 0, argW vs 1, argB vs 2, argB vs 3, argW vs 4⟩
  | .QuoteDispatch, vs => .QuoteDispatch ⟨argW vs 0, argW vs 1, argB vs 2⟩
  | .QuoteDispatchDefaultHookMeta, vs =>
      .QuoteDispatchWithDestinationDomainAndRecipientAddressAndDefaultHookMetadata
        ⟨argW vs 0, argW vs 1, argB vs 2, argB vs 3⟩
  | .RecipientIsm, vs => .RecipientIsm ⟨argW vs 0⟩
  | .RenounceOwnership, _ => .RenounceOwnership ⟨⟩
  | .RequiredHook, _ => .RequiredHook ⟨⟩
  | .SetDefaultHook, vs => .SetDefaultHook ⟨argW vs 0⟩
  | .SetDefaultIsm, vs => .SetDefaultIsm ⟨argW vs 0⟩
  | .SetRequiredHook, vs => .SetRequiredHook ⟨argW vs 0⟩
  | .TransferOwnership, vs => .TransferOwnership ⟨argW vs 0⟩

/-- Per-schema call decode, as the derived `AbiDecode` of each container
struct performs it: the first 4 bytes must equal the schema selector, the
remaining bytes must decode under the schema's argument descriptors. -/
def CallKind.structDecode (k : CallKind) (data : List Nat) : Option MailboxCalls :=
  if data.take 4 = k.selector then
    (decodeParams k.paramTypes (data.drop 4)).map k.buildCall
  else none

/-- The declaration order of the call variants, as the source's sequential
`if let Ok(...)` chain tries them (src lines 1002-1128). -/
def callDeclarationOrder : List CallKind :=
  [.Version, .DefaultHook, .DefaultIsm, .Delivered, .DeployedBlock,
   .Dispatch2, .Dispatch1, .Dispatch0, .Initialize, .LatestDispatchedId,
   .LocalDomain, .Nonce, .Owner, .Process, .ProcessedAt, .Processor,
   .QuoteDispatchMeta, .QuoteDispatch, .QuoteDispatchDefaultHookMeta,
   .RecipientIsm, .RenounceOwnership, .RequiredHook, .SetDefaultHook,
   .SetDefaultIsm, .SetRequiredHook, .TransferOwnership]

/-- Sequential first-match: return the first `some` along the list, or
`InvalidData` when every attempt fails — the shape shared by both decode
chains of the source. -/
def firstSome {κ α : Type} (f : κ → Option α) : List κ → Except AbiError α
  | [] => .error .invalidData
  | k :: ks =>
    match f k with
    | some c => .ok c
    | none => firstSome f ks

/-- `impl AbiDecode for MailboxCalls` (src lines 1002-1128): try every call
schema in declaration order, return the first success, otherwise
`Error::InvalidData`. -/
def MailboxCalls.decode (data : List Nat) : Except AbiError MailboxCalls :=
  firstSome (fun k => k.structDecode data) callDeclarationOrder

/-- `impl AbiEncode for MailboxCalls` (src lines 1129-1133): each variant
encodes as its 4-byte selector followed by the head/tail encoding of its
arguments. -/
def MailboxCalls.encode (c : MailboxCalls) : List Nat :=
  c.kindOf.selector ++ encodeParams c.argVals

/-- A codec value is well typed for a descriptor: integers fit their declared
width, addresses fit 160 bits, words fit 256 bits, and byte sequences hold
bytes and have a `usize` length (the declared Rust field types `u32`,
`H256`/`[u8; 32]`, `Address` and `Vec<u8>` guarantee exactly this). -/
def valWFb : ParamValue → ParamType → Bool
  | .uintV v, .uint bits => decide (bits ≤ 256 ∧ v < 2 ^ bits)
  | .addressV v, .address => decide (v < 2 ^ 160)
  | .bytes32V v, .bytes32 => decide (v < 2 ^ 256)
  | .dynBytesV bs, .dynBytes =>
      bs.all (fun b => decide (b < 256)) && decide (bs.length < 2 ^ 64)
  | _, _ => false

/-- Pointwise well-typedness of an argument list against a descriptor list. -/
def valsWFb : List ParamValue → List ParamType → Bool
  | [], [] => true
  | v :: vs, t :: ts => valWFb v t && valsWFb vs ts
  | _, _ => false

/-- A call value is well typed when its arguments fit its schema. -/
def MailboxCalls.wf (c : MailboxCalls) : Prop :=
  valsWFb c.argVals c.kindOf.paramTypes = true

instance (c : MailboxCalls) : Decidable c.wf := by
  unfold MailboxCalls.wf; infer_instance

theorem encodeAux_fst_length (vs : List ParamValue) (off : Nat) :
    (encodeAux vs off).1.length = 32 * vs.length := by
  induction vs generalizing off with
  | nil => simp [encodeAux]
  | cons v rest ih =>
    by_cases hd : v.isDynamic
    · simp [encodeAux, hd, be256_length, ih]; ring
    · simp [encodeAux, hd, be256_length, ih]; ring

theorem readWord_at (pre suf : List Nat) (w : Nat) (hw : w < 2 ^ 256)
    (pos : Nat) (hpos : pre.length = pos) :
    readWord (pre ++ (be256 w ++ suf)) pos = some w := by
  subst hpos
  have hlen : pre.length + 32 ≤ (pre ++ (be256 w ++ suf)).length := by
    simp [be256_length]
  rw [readWord, if_pos hlen, List.drop_left]
  have htake : (be256 w ++ suf).take 32 = be256 w :=
    List.take_left' (be256_length w)
  rw [htake, wordToNat_be256 hw]

theorem take_padRight32 (bs suf : List Nat) :
    (padRight32 bs ++ suf).take bs.length = bs := by
  rw [padRight32, List.append_assoc]
  exact List.take_left' rfl

theorem padRight32_ge (bs : List Nat) : bs.length ≤ (padRight32 bs).length := by
  rw [padRight32_length]; omega

/-- One static decoding step of the round-trip argument: the head word of a
static value is read back in place and the remaining values decode by the
inductive hypothesis. -/
theorem decode_static_step (v : ParamValue) (t : ParamType)
    (rest : List ParamValue) (ts : List ParamType)
    (A B : List Nat) (s off : Nat)
    (hstat : v.isDynamic = false)
    (hw : v.headWord < 2 ^ 256)
    (hdec : ∀ data : List Nat, readWord data (32 * s) = some v.headWord →
      decodeParamAt data t s = some v)
    (hA : A.length = 32 * s)
    (hoff : off = A.length + 32 * (v :: rest).length + B.length)
    (hD : (A ++ (encodeAux (v :: rest) off).1 ++ B
            ++ (encodeAux (v :: rest) off).2).length < 2 ^ 256)
    (ih : ∀ A2 B2 : List Nat, ∀ s2 off2 : Nat,
      A2.length = 32 * s2 →
      off2 = A2.length + 32 * rest.length + B2.length →
      (A2 ++ (encodeAux rest off2).1 ++ B2 ++ (encodeAux rest off2).2).length < 2 ^ 256 →
      decodeParamsAux (A2 ++ (encodeAux rest off2).1 ++ B2 ++ (encodeAux rest off2).2) ts s2
        = some rest) :
    decodeParamsAux (A ++ (encodeAux (v :: rest) off).1 ++ B
        ++ (encodeAux (v :: rest) off).2) (t :: ts) s
      = some (v :: rest) := by
  have henc : encodeAux (v :: rest) off
      = (be256 v.headWord ++ (encodeAux rest off).1, (encodeAux rest off).2) := by
    simp [encodeAux, hstat]
  rw [henc] at hD ⊢
  have hDeq : A ++ (be256 v.headWord ++ (encodeAux rest off).1, (encodeAux rest off).2).1
        ++ B ++ (be256 v.headWord ++ (encodeAux rest off).1, (encodeAux rest off).2).2
      = A ++ (be256 v.headWord
          ++ ((encodeAux rest off).1 ++ (B ++ (encodeAux rest off).2))) := by
    simp [List.append_assoc]
  rw [hDeq] at hD ⊢
  have hr : readWord (A ++ (be256 v.headWord
      ++ ((encodeAux rest off).1 ++ (B ++ (encodeAux rest off).2)))) (32 * s)
      = some v.headWord :=
    readWord_at A _ v.headWord hw (32 * s) hA
  have h2 := hdec _ hr
  have hA2 : (A ++ be256 v.headWord).length = 32 * (s + 1) := by
    simp [be256_length]; omega
  have hoff2 : off = (A ++ be256 v.headWord).length + 32 * rest.length + B.length := by
    simp [be256_length] at hoff ⊢; omega
  have hD2eq : (A ++ be256 v.headWord) ++ (encodeAux rest off).1 ++ B
        ++ (encodeAux rest off).2
      = A ++ (be256 v.headWord
          ++ ((encodeAux rest off).1 ++ (B ++ (encodeAux rest off).2))) := by
    simp [List.append_assoc]
  have h3 := ih (A ++ be256 v.headWord) B (s + 1) off hA2 hoff2 (by rw [hD2eq]; exact hD)
  rw [hD2eq] at h3
  simp [decodeParamsAux, h2, h3]

/-- One dynamic decoding step of the round-trip argument: the offset word
points at the tail written for this value, the length word and the content
read back exactly, and the remaining values decode by the inductive
hypothesis with the tail appended to the already-consumed region. -/
theorem decode_dyn_step (bs : List Nat) (rest : List ParamValue) (ts : List ParamType)
    (A B : List Nat) (s off : Nat)
    (hA : A.length = 32 * s)
    (hoff : off = A.length + 32 * (ParamValue.dynBytesV bs :: rest).length + B.length)
    (hD : (A ++ (encodeAux (.dynBytesV bs :: rest) off).1 ++ B
            ++ (encodeAux (.dynBytesV bs :: rest) off).2).length < 2 ^ 256)
    (ih : ∀ A2 B2 : List Nat, ∀ s2 off2 : Nat,
      A2.length = 32 * s2 →
      off2 = A2.length + 32 * rest.length + B2.length →
      (A2 ++ (encodeAux rest off2).1 ++ B2 ++ (encodeAux rest off2).2).length < 2 ^ 256 →
      decodeParamsAux (A2 ++ (encodeAux rest off2).1 ++ B2 ++ (encodeAux rest off2).2) ts s2
        = some rest) :
    decodeParamsAux (A ++ (encodeAux (.dynBytesV bs :: rest) off).1 ++ B
        ++ (encodeAux (.dynBytesV bs :: rest) off).2) (.dynBytes :: ts) s
      = some (.dynBytesV bs :: rest) := by
  have htl : (ParamValue.dynBytesV bs).tailBytes = be256 bs.length ++ padRight32 bs := rfl
  have henc : encodeAux (.dynBytesV bs :: rest) off
      = (be256 off ++ (encodeAux rest (off + (be256 bs.length ++ padRight32 bs).length)).1,
         (be256 bs.length ++ padRight32 bs)
           ++ (encodeAux rest (off + (be256 bs.length ++ padRight32 bs).length)).2) := by
    simp [encodeAux, ParamValue.isDynamic, ParamValue.tailBytes]
  set tlen := (be256 bs.length ++ padRight32 bs).length with htlen
  set q1 := (encodeAux rest (off + tlen)).1 with hq1
  set q2 := (encodeAux rest (off + tlen)).2 with hq2
  rw [henc] at hD ⊢
  have hDeq : A ++ (be256 off ++ q1, (be256 bs.length ++ padRight32 bs) ++ q2).1 ++ B
        ++ (be256 off ++ q1, (be256 bs.length ++ padRight32 bs) ++ q2).2
      = A ++ (be256 off ++ (q1 ++ (B ++ (be256 bs.length ++ (padRight32 bs ++ q2))))) := by
    simp [List.append_assoc]
  rw [hDeq] at hD ⊢
  set D := A ++ (be256 off ++ (q1 ++ (B ++ (be256 bs.length ++ (padRight32 bs ++ q2)))))
    with hDdef
  have hq1len : q1.length = 32 * rest.length := encodeAux_fst_length rest (off + tlen)
  have hDlen : D.length
      = A.length + 32 + q1.length + B.length + 32 + (padRight32 bs).length + q2.length := by
    simp [hDdef, be256_length]; omega
  have hofflt : off < 2 ^ 256 := by
    have : off ≤ D.length := by simp at hoff; omega
    omega
  have hr1 : readWord D (32 * s) = some off :=
    readWord_at A _ off hofflt (32 * s) hA
  have hP : (A ++ (be256 off ++ (q1 ++ B))).length = off := by
    simp [be256_length, hq1len]
    simp at hoff; omega
  have hsplit : D = (A ++ (be256 off ++ (q1 ++ B)))
      ++ (be256 bs.length ++ (padRight32 bs ++ q2)) := by
    simp [hDdef, List.append_assoc]
  have hLlt : bs.length < 2 ^ 256 := by
    have := padRight32_ge bs; omega
  have hr2 : readWord D off = some bs.length := by
    rw [hsplit]
    exact readWord_at _ _ bs.length hLlt off hP
  have hbound : off + 32 + bs.length ≤ D.length := by
    have := padRight32_ge bs
    simp at hoff; omega
  have hP2 : ((A ++ (be256 off ++ (q1 ++ B))) ++ be256 bs.length).length = off + 32 := by
    simp [be256_length, hq1len]
    simp at hoff; omega
  have hsplit2 : D = ((A ++ (be256 off ++ (q1 ++ B))) ++ be256 bs.length)
      ++ (padRight32 bs ++ q2) := by
    simp [hDdef, List.append_assoc]
  have hcontent : (D.drop (off + 32)).take bs.length = bs := by
    rw [hsplit2, List.drop_left' hP2, take_padRight32]
  have h2 : decodeParamAt D .dynBytes s = some (.dynBytesV bs) := by
    simp [decodeParamAt, hr1, hr2, hbound, hcontent]
  have hA2 : (A ++ be256 off).length = 32 * (s + 1) := by
    simp [be256_length]; omega
  have hoff2 : off + tlen
      = (A ++ be256 off).length + 32 * rest.length
        + (B ++ (be256 bs.length ++ padRight32 bs)).length := by
    simp [be256_length, htlen] at hoff ⊢; omega
  have hD2eq : (A ++ be256 off) ++ q1 ++ (B ++ (be256 bs.length ++ padRight32 bs)) ++ q2
      = D := by
    simp [hDdef, List.append_assoc]
  have h3 := ih (A ++ be256 off) (B ++ (be256 bs.length ++ padRight32 bs)) (s + 1)
    (off + tlen) hA2 hoff2 (by rw [← hq1, ← hq2, hD2eq]; exact hD)
  rw [← hq1, ← hq2, hD2eq] at h3
  simp [decodeParamsAux, h2, h3]

/-- Generalized head/tail round trip.  `A` is the already decoded head
region (32 bytes per slot, `s` slots), `B` the tails of the already decoded
dynamic values, `off` the running tail offset of the encoder; the whole
buffer must describe fewer than `2 ^ 256` bytes so that offset and length
words are exact. -/
theorem decodeAux_roundtrip (vs : List ParamValue) (tys : List ParamType)
    (A B : List Nat) (s off : Nat)
    (hwf : valsWFb vs tys = true)
    (hA : A.length = 32 * s)
    (hoff : off = A.length + 32 * vs.length + B.length)
    (hD : (A ++ (encodeAux vs off).1 ++ B ++ (encodeAux vs off).2).length < 2 ^ 256) :
    decodeParamsAux (A ++ (encodeAux vs off).1 ++ B ++ (encodeAux vs off).2) tys s
      = some vs := by
  induction vs generalizing tys A B s off with
  | nil =>
    cases tys with
    | nil => simp [decodeParamsAux]
    | cons t ts => simp [valsWFb] at hwf
  | cons v rest ih =>
    cases tys with
    | nil => simp [valsWFb] at hwf
    | cons t ts =>
      rw [show valsWFb (v :: rest) (t :: ts) = (valWFb v t && valsWFb rest ts) from rfl,
        Bool.and_eq_true] at hwf
      obtain ⟨h0, h1⟩ := hwf
      cases v with
      | uintV v0 =>
        cases t with
        | uint bits =>
          simp only [valWFb, decide_eq_true_eq] at h0
          have hw : v0 < 2 ^ 256 :=
            lt_of_lt_of_le h0.2 (Nat.pow_le_pow_right (by norm_num) h0.1)
          exact decode_static_step (.uintV v0) (.uint bits) rest ts A B s off
            (by simp [ParamValue.isDynamic]) hw
            (by intro data h2; simp only [ParamValue.headWord] at h2
                show (readWord data (32 * s)).map ParamValue.uintV = some (.uintV v0)
                rw [h2]; rfl)
            hA hoff hD (fun A2 B2 s2 off2 => ih ts A2 B2 s2 off2 h1)
        | address => simp [valWFb] at h0
        | bytes32 => simp [valWFb] at h0
        | dynBytes => simp [valWFb] at h0
      | addressV v0 =>
        cases t with
        | uint bits => simp [valWFb] at h0
        | address =>
          simp only [valWFb, decide_eq_true_eq] at h0
          have hw : v0 < 2 ^ 256 := lt_trans h0 (by norm_num)
          exact decode_static_step (.addressV v0) .address rest ts A B s off
            (by simp [ParamValue.isDynamic]) hw
            (by intro data h2; simp only [ParamValue.headWord] at h2
                show (readWord data (32 * s)).map (fun w => ParamValue.addressV (w % 2 ^ 160))
                  = some (.addressV v0)
                rw [h2]
                show some (ParamValue.addressV (v0 % 2 ^ 160)) = some (.addressV v0)
                rw [Nat.mod_eq_of_lt h0])
            hA hoff hD (fun A2 B2 s2 off2 => ih ts A2 B2 s2 off2 h1)
        | bytes32 => simp [valWFb] at h0
        | dynBytes => simp [valWFb] at h0
      | bytes32V v0 =>
        cases t with
        | uint bits => simp [valWFb] at h0
        | address => simp [valWFb] at h0
        | bytes32 =>
          simp only [valWFb, decide_eq_true_eq] at h0
          exact decode_static_step (.bytes32V v0) .bytes32 rest ts A B s off
            (by simp [ParamValue.isDynamic]) h0
            (by intro data h2; simp only [ParamValue.headWord] at h2
                show (readWord data (32 * s)).map ParamValue.bytes32V = some (.bytes32V v0)
                rw [h2]; rfl)
            hA hoff hD (fun A2 B2 s2 off2 => ih ts A2 B2 s2 off2 h1)
        | dynBytes => simp [valWFb] at h0
      | dynBytesV bs =>
        cases t with
        | uint bits => simp [valWFb] at h0
        | address => simp [valWFb] at h0
        | bytes32 => simp [valWFb] at h0
        | dynBytes =>
          exact decode_dyn_step bs rest ts A B s off hA hoff hD
            (fun A2 B2 s2 off2 => ih ts A2 B2 s2 off2 h1)

/-- Value-level round trip of the codec: decoding the head/tail encoding of a
well-typed argument list under its own descriptors recovers the list. -/
theorem decodeParams_roundtrip (vs : List ParamValue) (tys : List ParamType)
    (hwf : valsWFb vs tys = true)
    (hlen : (encodeParams vs).length < 2 ^ 256) :
    decodeParams tys (encodeParams vs) = some vs := by
  have hlen2 : (([] : List Nat) ++ (encodeAux vs (32 * vs.length)).1 ++ []
      ++ (encodeAux vs (32 * vs.length)).2).length < 2 ^ 256 := by
    simp [encodeParams] at hlen
    simpa using hlen
  have h := decodeAux_roundtrip vs tys [] [] 0 (32 * vs.length) hwf (by simp)
    (by simp) hlen2
  simp only [List.nil_append] at h
  simpa [decodeParams, encodeParams] using h

theorem encodeAux_snd_length_le (vs : List ParamValue) (tys : List ParamType) (off : Nat)
    (h : valsWFb vs tys = true) :
    (encodeAux vs off).2.length ≤ vs.length * (2 ^ 64 + 63) := by
  induction vs generalizing tys off with
  | nil => simp [encodeAux]
  | cons v rest ih =>
    cases tys with
    | nil => simp [valsWFb] at h
    | cons t ts =>
      rw [show valsWFb (v :: rest) (t :: ts) = (valWFb v t && valsWFb rest ts) from rfl,
        Bool.and_eq_true] at h
      obtain ⟨h0, h1⟩ := h
      by_cases hd : v.isDynamic
      · cases v with
        | dynBytesV bs =>
          cases t with
          | dynBytes =>
            simp only [valWFb, Bool.and_eq_true, decide_eq_true_eq] at h0
            have htl : (ParamValue.dynBytesV bs).tailBytes.length ≤ 2 ^ 64 + 63 := by
              simp [ParamValue.tailBytes, be256_length, padRight32_length]
              omega
            have hrec := ih ts (off + (ParamValue.dynBytesV bs).tailBytes.length) h1
            simp only [encodeAux, ParamValue.isDynamic, if_true, List.length_cons]
            simp only [List.length_append]
            omega
          | uint bits => simp [valWFb] at h0
          | address => simp [valWFb] at h0
          | bytes32 => simp [valWFb] at h0
        | uintV v0 => simp [ParamValue.isDynamic] at hd
        | addressV v0 => simp [ParamValue.isDynamic] at hd
        | bytes32V v0 => simp [ParamValue.isDynamic] at hd
      · have hrec := ih ts off h1
        simp only [encodeAux, hd, Bool.false_eq_true, if_false, List.length_cons]
        omega

theorem encodeParams_length_le (vs : List ParamValue) (tys : List ParamType)
    (h : valsWFb vs tys = true) :
    (encodeParams vs).length ≤ 32 * vs.length + vs.length * (2 ^ 64 + 63) := by
  have h1 := encodeAux_fst_length vs (32 * vs.length)
  have h2 := encodeAux_snd_length_le vs tys (32 * vs.length) h
  simp only [encodeParams, List.length_append]
  omega

theorem argVals_length_le (c : MailboxCalls) : c.argVals.length ≤ 5 := by
  cases c <;> simp [MailboxCalls.argVals]

/-- For a well-typed call the encoded argument block stays far below the
`2 ^ 256` word bound (at most 5 arguments, each dynamic one below
`2 ^ 64` bytes). -/
theorem encode_block_lt (c : MailboxCalls) (h : c.wf) :
    (encodeParams c.argVals).length < 2 ^ 256 := by
  have h1 := encodeParams_length_le c.argVals c.kindOf.paramTypes h
  have h2 := argVals_length_le c
  have h3 : (32 : Nat) * c.argVals.length + c.argVals.length * (2 ^ 64 + 63)
      ≤ 32 * 5 + 5 * (2 ^ 64 + 63) := by
    have h4 : c.argVals.length * (2 ^ 64 + 63) ≤ 5 * (2 ^ 64 + 63) :=
      Nat.mul_le_mul_right _ h2
    omega
  calc (encodeParams c.argVals).length ≤ 32 * 5 + 5 * (2 ^ 64 + 63) := le_trans h1 h3
    _ < 2 ^ 256 := by norm_num

theorem selector_length (k : CallKind) : k.selector.length = 4 := by
  cases k <;> rfl

/-- The 26 selectors are pairwise distinct, hence determine the schema. -/
theorem selector_injective : ∀ k1 k2 : CallKind, k1.selector = k2.selector → k1 = k2 := by
  decide

theorem buildCall_argVals (c : MailboxCalls) : c.kindOf.buildCall c.argVals = c := by
  cases c <;> rfl

theorem callKind_mem_declarationOrder (k : CallKind) : k ∈ callDeclarationOrder := by
  cases k <;> simp [callDeclarationOrder]

/-- Per-schema decode inverts the encoding of a well-typed call of the same
schema. -/
theorem structDecode_encode_self (c : MailboxCalls) (h : c.wf) :
    c.kindOf.structDecode c.encode = some c := by
  unfold CallKind.structDecode MailboxCalls.encode
  have ht : (c.kindOf.selector ++ encodeParams c.argVals).take 4 = c.kindOf.selector :=
    List.take_left' (selector_length _)
  have hd : (c.kindOf.selector ++ encodeParams c.argVals).drop 4 = encodeParams c.argVals :=
    List.drop_left' (selector_length _)
  rw [if_pos ht, hd, decodeParams_roundtrip c.argVals c.kindOf.paramTypes h
    (encode_block_lt c h)]
  simp [buildCall_argVals]

/-- Per-schema decode of another schema's encoding fails at the selector. -/
theorem structDecode_encode_ne (c : MailboxCalls) (k : CallKind) (hk : k ≠ c.kindOf) :
    k.structDecode c.encode = none := by
  unfold CallKind.structDecode MailboxCalls.encode
  have ht : (c.kindOf.selector ++ encodeParams c.argVals).take 4 = c.kindOf.selector :=
    List.take_left' (selector_length _)
  rw [if_neg]
  rw [ht]
  intro hsel
  exact hk (selector_injective k c.kindOf hsel.symm)

theorem firstSome_eq_ok_of_unique {κ α : Type} (f : κ → Option α) (ks : List κ)
    (k0 : κ) (v : α) (hmem : k0 ∈ ks) (hself : f k0 = some v)
    (hother : ∀ k, k ≠ k0 → f k = none) :
    firstSome f ks = .ok v := by
  induction ks with
  | nil => cases hmem
  | cons k ks ih =>
    by_cases hkk : k = k0
    · subst hkk; simp [firstSome, hself]
    · rw [firstSome, hother k hkk]
      exact ih ((List.mem_cons.mp hmem).resolve_left (fun h2 => hkk h2.symm))

theorem firstSome_cases {κ α : Type} (f : κ → Option α) (ks : List κ) :
    (∃ v, firstSome f ks = .ok v) ∨ firstSome f ks = .error .invalidData := by
  induction ks with
  | nil => exact Or.inr rfl
  | cons k ks ih =>
    cases hf : f k with
    | some v => exact Or.inl ⟨v, by simp [firstSome, hf]⟩
    | none => simpa [firstSome, hf] using ih

theorem firstSome_ok_mem {κ α : Type} (f : κ → Option α) (ks : List κ) (v : α)
    (h : firstSome f ks = .ok v) : ∃ k ∈ ks, f k = some v := by
  induction ks with
  | nil => exact absurd h (by simp [firstSome])
  | cons k ks ih =>
    cases hf : f k with
    | some w =>
      rw [firstSome, hf] at h
      cases h
      exact ⟨k, List.mem_cons_self k ks, hf⟩
    | none =>
      rw [firstSome, hf] at h
      obtain ⟨k2, hk2, hfk2⟩ := ih h
      exact ⟨k2, List.mem_cons_of_mem k hk2, hfk2⟩

theorem firstSome_all_none {κ α : Type} (f : κ → Option α) (ks : List κ)
    (h : ∀ k ∈ ks, f k = none) : firstSome f ks = .error .invalidData := by
  induction ks with
  | nil => rfl
  | cons k ks ih =>
    rw [firstSome, h k (List.mem_cons_self k ks)]
    exact ih (fun k2 hk2 => h k2 (List.mem_cons_of_mem k hk2))

theorem firstSome_eq_find {κ α : Type} (f : κ → Option α) (ks : List κ) :
    firstSome f ks
      = (match ks.find? (fun k => (f k).isSome) with
        | some k => (f k).elim (.error .invalidData) .ok
        | none => .error .invalidData) := by
  induction ks with
  | nil => rfl
  | cons k ks ih =>
    cases hf : f k with
    | some v =>
      rw [firstSome, hf, List.find?_cons_of_pos _ (by simp [hf])]
      simp [hf]
    | none =>
      rw [firstSome, hf, List.find?_cons_of_neg _ (by simp [hf])]
      exact ih

/-- C1: decoding the encoding of any well-typed call value of the binding
recovers that value; the selectors being what they are, no earlier variant of
the sequential decode chain claims the encoding of a later one. -/
theorem mailboxCalls_decode_encode_roundtrip (c : MailboxCalls) (h : c.wf) :
    MailboxCalls.decode c.encode = .ok c := by
  unfold MailboxCalls.decode
  exact firstSome_eq_ok_of_unique _ callDeclarationOrder c.kindOf c
    (callKind_mem_declarationOrder c.kindOf)
    (structDecode_encode_self c h)
    (fun k hk => structDecode_encode_ne c k hk)

set_option maxRecDepth 40000 in
theorem mailboxCalls_decode_encode_roundtrip_witness :
    (MailboxCalls.Dispatch0 ⟨7, 1, [104, 105]⟩).wf ∧
    MailboxCalls.decode (MailboxCalls.encode (.Dispatch0 ⟨7, 1, [104, 105]⟩))
      = .ok (.Dispatch0 ⟨7, 1, [104, 105]⟩) :=
  ⟨by decide, mailboxCalls_decode_encode_roundtrip (.Dispatch0 ⟨7, 1, [104, 105]⟩) (by decide)⟩

/-- Candidate test of the multiplexer as the spec words it (§4.5): the
schema's canonical selector equals the first 4 bytes and the full argument
decode succeeds on the remaining bytes. -/
def CallKind.specMatches (k : CallKind) (data : List Nat) : Bool :=
  decide (data.take 4 = k.selector) && (decodeParams k.paramTypes (data.drop 4)).isSome

/-- The call multiplexer as the specification words it (§4.5): among the
registered schemas, taken in declaration order, return the first whose
selector matches the 4-byte prefix and whose argument decode succeeds;
fail with `NoMatchingSchema` (`InvalidData`) when none does. -/
def specDecodeCall (data : List Nat) : Except AbiError MailboxCalls :=
  match callDeclarationOrder.find? (fun k => k.specMatches data) with
  | some k => (k.structDecode data).elim (.error .invalidData) .ok
  | none => .error .invalidData

theorem structDecode_isSome (k : CallKind) (data : List Nat) :
    (k.structDecode data).isSome = k.specMatches data := by
  unfold CallKind.structDecode CallKind.specMatches
  by_cases h : data.take 4 = k.selector
  · simp [h]
  · simp [h]

theorem structDecode_ok_shape (k : CallKind) (data : List Nat) (c : MailboxCalls)
    (h : k.structDecode data = some c) :
    data.take 4 = k.selector ∧ c.kindOf = k := by
  unfold CallKind.structDecode at h
  by_cases hc : data.take 4 = k.selector
  · rw [if_pos hc] at h
    obtain ⟨vs, _, hbuild⟩ := Option.map_eq_some'.mp h
    have hkind : (k.buildCall vs).kindOf = k := by cases k <;> rfl
    exact ⟨hc, by rw [← hbuild, hkind]⟩
  · rw [if_neg hc] at h
    cases h

/-- C2: the sequential decode chain implements the spec's first-match
multiplexer over the declaration order; a variant whose selector differs
from the 4-byte prefix is never returned; when no candidate matches, the
chain fails with `InvalidData`. -/
theorem mailboxCalls_decode_spec (data : List Nat) :
    MailboxCalls.decode data = specDecodeCall data ∧
    (∀ c, MailboxCalls.decode data = .ok c → data.take 4 = c.kindOf.selector) ∧
    ((∀ k : CallKind, k.specMatches data = false) →
      MailboxCalls.decode data = .error .invalidData) := by
  refine ⟨?_, ?_, ?_⟩
  · rw [MailboxCalls.decode, firstSome_eq_find]
    have hpred : (fun k : CallKind => (k.structDecode data).isSome)
        = fun k => k.specMatches data :=
      funext (fun k => structDecode_isSome k data)
    rw [hpred]
    unfold specDecodeCall
    cases hfind : callDeclarationOrder.find? (fun k => k.specMatches data) with
    | none => simp [hfind]
    | some k => simp [hfind]
  · intro c hc
    obtain ⟨k, _, hk⟩ := firstSome_ok_mem _ _ _ hc
    obtain ⟨hsel, hkind⟩ := structDecode_ok_shape k data c hk
    rw [hkind]
    exact hsel
  · intro hall
    exact firstSome_all_none _ _ (fun k _ => by
      have h1 := structDecode_isSome k data
      rw [hall k] at h1
      exact Option.not_isSome_iff_eq_none.mp (by simp [h1]))

theorem mailboxCalls_decode_spec_witness :
    MailboxCalls.decode [1, 2, 3] = specDecodeCall [1, 2, 3] ∧
    MailboxCalls.decode [1, 2, 3] = .error .invalidData :=
  ⟨(mailboxCalls_decode_spec [1, 2, 3]).1,
   (mailboxCalls_decode_spec [1, 2, 3]).2.2 (by decide)⟩

theorem readWord_append_stable (data ext : List Nat) (pos w : Nat)
    (h : readWord data pos = some w) : readWord (data ++ ext) pos = some w := by
  unfold readWord at h ⊢
  by_cases hle : pos + 32 ≤ data.length
  · rw [if_pos hle] at h
    have hle2 : pos + 32 ≤ (data ++ ext).length := by simp; omega
    rw [if_pos hle2, ← h]
    have hdrop : (data ++ ext).drop pos = data.drop pos ++ ext :=
      List.drop_append_of_le_length (by omega)
    have htake : (data.drop pos ++ ext).take 32 = (data.drop pos).take 32 :=
      List.take_append_of_le_length (by simp; omega)
    rw [hdrop, htake]
  · rw [if_neg hle] at h
    cases h

theorem decodeParamAt_append_stable (data ext : List Nat) (t : ParamType) (slot : Nat)
    (v : ParamValue) (h : decodeParamAt data t slot = some v) :
    decodeParamAt (data ++ ext) t slot = some v := by
  cases t with
  | uint bits =>
    obtain ⟨w, hw, hv⟩ := Option.map_eq_some'.mp h
    simp [decodeParamAt, readWord_append_stable data ext _ w hw, hv]
  | address =>
    obtain ⟨w, hw, hv⟩ := Option.map_eq_some'.mp h
    simp only [decodeParamAt]
    rw [readWord_append_stable data ext _ w hw]
    simpa using hv
  | bytes32 =>
    obtain ⟨w, hw, hv⟩ := Option.map_eq_some'.mp h
    simp [decodeParamAt, readWord_append_stable data ext _ w hw, hv]
  | dynBytes =>
    simp only [decodeParamAt] at h ⊢
    cases h1 : readWord data (32 * slot) with
    | none => simp only [h1] at h; exact Option.noConfusion h
    | some off =>
      simp only [h1] at h
      cases h2 : readWord data off with
      | none => simp only [h2] at h; exact Option.noConfusion h
      | some len =>
        simp only [h2] at h
        by_cases hb : off + 32 + len ≤ data.length
        · rw [if_pos hb] at h
          simp only [readWord_append_stable data ext _ off h1,
            readWord_append_stable data ext _ len h2]
          have hb2 : off + 32 + len ≤ (data ++ ext).length := by simp; omega
          rw [if_pos hb2]
          have hdrop : (data ++ ext).drop (off + 32) = data.drop (off + 32) ++ ext :=
            List.drop_append_of_le_length (by omega)
          have htake : (data.drop (off + 32) ++ ext).take len
              = (data.drop (off + 32)).take len :=
            List.take_append_of_le_length (by simp; omega)
          rw [hdrop, htake]
          exact h
        · rw [if_neg hb] at h
          exact Option.noConfusion h

theorem decodeParamsAux_append_stable (data ext : List Nat) (tys : List ParamType)
    (slot : Nat) (vs : List ParamValue) (h : decodeParamsAux data tys slot = some vs) :
    decodeParamsAux (data ++ ext) tys slot = some vs := by
  induction tys generalizing slot vs with
  | nil =>
    cases h
    rfl
  | cons t ts ih =>
    simp only [decodeParamsAux] at h ⊢
    cases h1 : decodeParamAt data t slot with
    | none => rw [h1] at h; cases h
    | some v =>
      rw [h1] at h
      cases h2 : decodeParamsAux data ts (slot + 1) with
      | none => rw [h2] at h; cases h
      | some vs2 =>
        rw [h2] at h
        rw [decodeParamAt_append_stable data ext t slot v h1, ih (slot + 1) vs2 h2]
        exact h

theorem take_four_of_selector (data : List Nat) (k : CallKind)
    (h : data.take 4 = k.selector) : 4 ≤ data.length := by
  have h1 : (data.take 4).length = k.selector.length := by rw [h]
  rw [List.length_take, selector_length] at h1
  omega

theorem structDecode_append_stable (k : CallKind) (data ext : List Nat) (c : MailboxCalls)
    (h : k.structDecode data = some c) : k.structDecode (data ++ ext) = some c := by
  unfold CallKind.structDecode at h ⊢
  by_cases hc : data.take 4 = k.selector
  · rw [if_pos hc] at h
    have hlen := take_four_of_selector data k hc
    have htake : (data ++ ext).take 4 = data.take 4 :=
      List.take_append_of_le_length hlen
    rw [if_pos (by rw [htake]; exact hc)]
    have hdrop : (data ++ ext).drop 4 = data.drop 4 ++ ext :=
      List.drop_append_of_le_length hlen
    rw [hdrop]
    obtain ⟨vs, hvs, hbuild⟩ := Option.map_eq_some'.mp h
    rw [show decodeParams k.paramTypes (data.drop 4 ++ ext) = some vs from
      decodeParamsAux_append_stable _ ext _ 0 vs hvs]
    simp [hbuild]
  · rw [if_neg hc] at h
    cases h

/-- A successful chain decode is preserved, with the same result, by
appending arbitrary bytes: the decode never reads past the bytes that
produced it. -/
theorem mailboxCalls_decode_append_stable (data ext : List Nat) (c : MailboxCalls)
    (h : MailboxCalls.decode data = .ok c) :
    MailboxCalls.decode (data ++ ext) = .ok c := by
  obtain ⟨k, _, hk⟩ := firstSome_ok_mem _ _ _ h
  obtain ⟨hsel, hkind⟩ := structDecode_ok_shape k data c hk
  have hlen := take_four_of_selector data k hsel
  have htake : (data ++ ext).take 4 = data.take 4 :=
    List.take_append_of_le_length hlen
  apply firstSome_eq_ok_of_unique _ callDeclarationOrder k c
    (callKind_mem_declarationOrder k)
    (structDecode_append_stable k data ext c hk)
  intro k2 hk2
  unfold CallKind.structDecode
  rw [if_neg]
  rw [htake, hsel]
  intro h2
  exact hk2 (selector_injective k2 k h2.symm)

/-- C7: decoding a strict prefix of a valid encoding either fails with the
chain's `InvalidData` error or parses to a value that is unchanged by any
extension of the prefix — the decode never reads past the prefix. -/
theorem mailboxCalls_decode_prefix_safe (c : MailboxCalls) (pre : List Nat)
    (hpre : ∃ rest, rest ≠ [] ∧ c.encode = pre ++ rest) :
    MailboxCalls.decode pre = .error .invalidData ∨
    ∃ c2, MailboxCalls.decode pre = .ok c2 ∧
      ∀ ext, MailboxCalls.decode (pre ++ ext) = .ok c2 := by
  rcases firstSome_cases (fun k => k.structDecode pre) callDeclarationOrder with
    ⟨v, hv⟩ | herr
  · exact Or.inr ⟨v, hv, fun ext => mailboxCalls_decode_append_stable pre ext v hv⟩
  · exact Or.inl herr

theorem mailboxCalls_decode_prefix_safe_witness :
    MailboxCalls.decode [255, 161, 173] = .error .invalidData ∨
    ∃ c2, MailboxCalls.decode [255, 161, 173] = .ok c2 ∧
      ∀ ext, MailboxCalls.decode ([255, 161, 173] ++ ext) = .ok c2 :=
  mailboxCalls_decode_prefix_safe (.Version ⟨⟩) [255, 161, 173]
    ⟨[116], by decide, by decide⟩

/-- C9: the 26 selectors are pairwise distinct; at most one schema's
per-struct decode can succeed on given bytes; and the chain's result does
not depend on the order in which the candidates are tried. -/
theorem mailboxCalls_selectors_distinct_order_independent :
    (callDeclarationOrder.map CallKind.selector).Nodup ∧
    (∀ (data : List Nat) (k1 k2 : CallKind),
      (k1.structDecode data).isSome → (k2.structDecode data).isSome → k1 = k2) ∧
    ∀ (data : List Nat) (ks : List CallKind), ks.Perm callDeclarationOrder →
      firstSome (fun k => k.structDecode data) ks = MailboxCalls.decode data := by
  have huniq : ∀ (data : List Nat) (k1 k2 : CallKind),
      (k1.structDecode data).isSome → (k2.structDecode data).isSome → k1 = k2 := by
    intro data k1 k2 h1 h2
    obtain ⟨c1, hc1⟩ := Option.isSome_iff_exists.mp h1
    obtain ⟨c2, hc2⟩ := Option.isSome_iff_exists.mp h2
    have s1 := (structDecode_ok_shape k1 data c1 hc1).1
    have s2 := (structDecode_ok_shape k2 data c2 hc2).1
    exact selector_injective k1 k2 (s1 ▸ s2)
  refine ⟨by decide, huniq, ?_⟩
  intro data ks hperm
  by_cases hall : ∀ k : CallKind, k.structDecode data = none
  · rw [firstSome_all_none _ _ (fun k _ => hall k),
      MailboxCalls.decode, firstSome_all_none _ _ (fun k _ => hall k)]
  · push_neg at hall
    obtain ⟨k0, hk0⟩ := hall
    obtain ⟨v, hv⟩ := Option.ne_none_iff_exists'.mp hk0
    have hother : ∀ k, k ≠ k0 → k.structDecode data = none := by
      intro k hk
      by_contra hne
      obtain ⟨w, hw⟩ := Option.ne_none_iff_exists'.mp hne
      exact hk (huniq data k k0 (by simp [hw]) (by simp [hv]))
    rw [firstSome_eq_ok_of_unique _ ks k0 v
        (hperm.mem_iff.mpr (callKind_mem_declarationOrder k0)) hv hother,
      MailboxCalls.decode, firstSome_eq_ok_of_unique _ callDeclarationOrder k0 v
        (callKind_mem_declarationOrder k0) hv hother]

set_option maxRecDepth 40000 in
theorem mailboxCalls_selectors_distinct_order_independent_witness :
    firstSome (fun k => k.structDecode (MailboxCalls.encode (.Version ⟨⟩)))
        callDeclarationOrder.reverse
      = MailboxCalls.decode (MailboxCalls.encode (.Version ⟨⟩)) :=
  (mailboxCalls_selectors_distinct_order_independent).2.2
    (MailboxCalls.encode (.Version ⟨⟩)) callDeclarationOrder.reverse (by decide)

/-- A raw log entry: the ordered 32-byte topic words (as their numeric
values) and the opaque data bytes, as in `ethers::core::abi::RawLog`. -/
structure RawLog where
  topics : List Nat
  data : List Nat
  deriving DecidableEq

/-- Record of the `DefaultHookSet(address)` event. -/
structure DefaultHookSetFilter where
  hook : Nat
  deriving DecidableEq

/-- Record of the `DefaultIsmSet(address)` event. -/
structure DefaultIsmSetFilter where
  module : Nat
  deriving DecidableEq

/-- Record of the `Dispatch(address,uint32,bytes32,bytes)` event: three
indexed fields and the non-indexed message bytes. -/
structure DispatchFilter where
  sender : Nat
  destination : Nat
  recipient : Nat
  message : List Nat
  deriving DecidableEq

/-- Record of the `DispatchId(bytes32)` event. -/
structure DispatchIdFilter where
  message_id : Nat
  deriving DecidableEq

/-- Record of the `Initialized(uint8)` event (its field is not indexed). -/
structure InitializedFilter where
  version : Nat
  deriving DecidableEq

/-- Record of the `OwnershipTransferred(address,address)` event. -/
structure OwnershipTransferredFilter where
  previous_owner : Nat
  new_owner : Nat
  deriving DecidableEq

/-- Record of the `Process(uint32,bytes32,address)` event. -/
structure ProcessFilter where
  origin : Nat
  sender : Nat
  recipient : Nat
  deriving DecidableEq

/-- Record of the `ProcessId(bytes32)` event. -/
structure ProcessIdFilter where
  message_id : Nat
  deriving DecidableEq

/-- Record of the `RequiredHookSet(address)` event. -/
structure RequiredHookSetFilter where
  hook : Nat
  deriving DecidableEq

/-- The event enum of the binding, variants in source declaration order
(src lines 528-538). -/
inductive MailboxEvents
  | DefaultHookSetFilter (e : DefaultHookSetFilter)
  | DefaultIsmSetFilter (e : DefaultIsmSetFilter)
  | DispatchFilter (e : DispatchFilter)
  | DispatchIdFilter (e : DispatchIdFilter)
  | InitializedFilter (e : InitializedFilter)
  | OwnershipTransferredFilter (e : OwnershipTransferredFilter)
  | ProcessFilter (e : ProcessFilter)
  | ProcessIdFilter (e : ProcessIdFilter)
  | RequiredHookSetFilter (e : RequiredHookSetFilter)
deriving DecidableEq

/-- One tag per registered event schema, in source declaration order. -/
inductive EventKind
  | DefaultHookSet
  | DefaultIsmSet
  | Dispatch
  | DispatchId
  | Initialized
  | OwnershipTransferred
  | Process
  | ProcessId
  | RequiredHookSet
deriving DecidableEq, Fintype

/-- The 32-byte topic-0 of each event: the Keccak-256 hash of the canonical
event signature of the `abi = "..."` attribute in the source.  The hash is
the spec's opaque cryptographic primitive (§1); its values on the nine
signatures are embedded as constants. -/
def EventKind.topic0 : EventKind → Nat
  | .DefaultHookSet =>
      0x65a63e5066ee2fcdf9d32a7f1bf7ce71c76066f19d0609dddccd334ab87237d7
  | .DefaultIsmSet =>
      0xa76ad0adbf45318f8633aa0210f711273d50fbb6fef76ed95bbae97082c75daa
  | .Dispatch =>
      0x769f711d20c679153d382254f59892613b58a97cc876b249134ac25c80f9c814
  | .DispatchId =>
      0x788dbc1b7152732178210e7f4d9d010ef016f9eafbe66786bd7169f56e0c353a
  | .Initialized =>
      0x7f26b83ff96e1f2b6a682f133852f6798a09c465da95921460cefb3847402498
  | .OwnershipTransferred =>
      0x8be0079c531659141344cd1fd0a4f28419497f9722a3daafe3b4186f6b6457e0
  | .Process =>
      0x0d381c2a574ae8f04e213db7cfb4df8df712cdbd427d9868ffef380660ca6574
  | .ProcessId =>
      0x1cae38cdd3d3919489272725a5ae62a4f48b2989b0dae843d3c279fee18073a9
  | .RequiredHookSet =>
      0x329ec8e2438a73828ecf31a6568d7a91d7b1d79e342b0692914fd053d1a002b1

/-- The descriptors of the indexed fields, in declared order (one topic per
indexed field), from the `#[ethevent(indexed)]` attributes of the source. -/
def EventKind.indexedTypes : EventKind → List ParamType
  | .DefaultHookSet => [.address]
  | .DefaultIsmSet => [.address]
  | .Dispatch => [.address, .uint 32, .bytes32]
  | .DispatchId => [.bytes32]
  | .Initialized => []
  | .OwnershipTransferred => [.address, .address]
  | .Process => [.uint 32, .bytes32, .address]
  | .ProcessId => [.bytes32]
  | .RequiredHookSet => [.address]

/-- The descriptors of the non-indexed fields, decoded from the log's data
bytes, in declared order. -/
def EventKind.dataTypes : EventKind → List ParamType
  | .Dispatch => [.dynBytes]
  | .Initialized => [.uint 8]
  | _ => []

/-- Read one indexed field in place from its 32-byte topic word (spec §4.6:
value-typed fields read in place; no registered event of this contract
indexes a reference type, so the hash-only case does not arise). -/
def decodeTopicWord : ParamType → Nat → Option ParamValue
  | .uint _bits, w => some (.uintV w)
  | .address, w => some (.addressV (w % 2 ^ 160))
  | .bytes32, w => some (.bytes32V w)
  | .dynBytes, _ => none

/-- Read the indexed fields, one topic word per field, in declared order. -/
def decodeTopics : List ParamType → List Nat → Option (List ParamValue)
  | [], [] => some []
  | t :: ts, w :: ws =>
    match decodeTopicWord t w, decodeTopics ts ws with
    | some v, some vs => some (v :: vs)
    | _, _ => none
  | _, _ => none

/-- Modelled from the spec (§4.6): per-schema log decode.  `topics[0]` must
equal the schema's topic-0 hash, the remaining topics carry exactly one
word per indexed field, and the non-indexed fields decode from `data` with
the head/tail rule. -/
def eventDecodeLog (topic0 : Nat) (itys dtys : List ParamType) (log : RawLog) :
    Option (List ParamValue × List ParamValue) :=
  match log.topics with
  | [] => none
  | t0 :: rest =>
    if t0 = topic0 ∧ rest.length = itys.length then
      match decodeTopics itys rest, decodeParams dtys log.data with
      | some ivs, some dvs => some (ivs, dvs)
      | _, _ => none
    else none

/-- Build the typed event record from the decoded indexed and non-indexed
values (mechanical detokenization, as for calls). -/
def EventKind.buildEvent : EventKind → List ParamValue → List ParamValue → MailboxEvents
  | .DefaultHookSet, ivs, _ => .DefaultHookSetFilter ⟨argW ivs 0⟩
  | .DefaultIsmSet, ivs, _ => .DefaultIsmSetFilter ⟨argW ivs 0⟩
  | .Dispatch, ivs, dvs => .DispatchFilter ⟨argW ivs 0, argW ivs 1, argW ivs 2, argB dvs 0⟩
  | .DispatchId, ivs, _ => .DispatchIdFilter ⟨argW ivs 0⟩
  | .Initialized, _, dvs => .InitializedFilter ⟨argW dvs 0⟩
  | .OwnershipTransferred, ivs, _ => .OwnershipTransferredFilter ⟨argW ivs 0, argW ivs 1⟩
  | .Process, ivs, _ => .ProcessFilter ⟨argW ivs 0, argW ivs 1, argW ivs 2⟩
  | .ProcessId, ivs, _ => .ProcessIdFilter ⟨argW ivs 0⟩
  | .RequiredHookSet, ivs, _ => .RequiredHookSetFilter ⟨argW ivs 0⟩

/-- Per-schema log decode producing the typed record. -/
def EventKind.structDecodeLog (k : EventKind) (log : RawLog) : Option MailboxEvents :=
  (eventDecodeLog k.topic0 k.indexedTypes k.dataTypes log).map
    (fun p => k.buildEvent p.1 p.2)

/-- The declaration order of the event variants, as the source's sequential
`if let Ok(...)` chain tries them (src lines 539-575). -/
def eventDeclarationOrder : List EventKind :=
  [.DefaultHookSet, .DefaultIsmSet, .Dispatch, .DispatchId, .Initialized,
   .OwnershipTransferred, .Process, .ProcessId, .RequiredHookSet]

/-- `impl EthLogDecode for MailboxEvents` (src lines 539-575): try every
event schema in declaration order, return the first success, otherwise
`Error::InvalidData`. -/
def MailboxEvents.decode_log (log : RawLog) : Except AbiError MailboxEvents :=
  firstSome (fun k => k.structDecodeLog log) eventDeclarationOrder

/-- Candidate test of the event demultiplexer as the spec words it (§4.6):
topic-0 matches, one topic per indexed field, indexed and non-indexed
field decodes succeed. -/
def EventKind.specMatches (k : EventKind) (log : RawLog) : Bool :=
  match log.topics with
  | [] => false
  | t0 :: rest =>
    decide (t0 = k.topic0) && decide (rest.length = k.indexedTypes.length)
      && (decodeTopics k.indexedTypes rest).isSome
      && (decodeParams k.dataTypes log.data).isSome

/-- The event demultiplexer as the specification words it (§4.6): the first
registered schema, in registration order, whose topic-0 matches and whose
field decodes succeed; `NoMatchingSchema` (`InvalidData`) otherwise. -/
def specDecodeLog (log : RawLog) : Except AbiError MailboxEvents :=
  match eventDeclarationOrder.find? (fun k => k.specMatches log) with
  | some k => (k.structDecodeLog log).elim (.error .invalidData) .ok
  | none => .error .invalidData

theorem structDecodeLog_isSome (k : EventKind) (log : RawLog) :
    (k.structDecodeLog log).isSome = k.specMatches log := by
  unfold EventKind.structDecodeLog EventKind.specMatches eventDecodeLog
  cases htop : log.topics with
  | nil => simp
  | cons t0 rest =>
    by_cases hc : t0 = k.topic0 ∧ rest.length = k.indexedTypes.length
    · obtain ⟨hc1, hc2⟩ := hc
      subst hc1
      cases hi : decodeTopics k.indexedTypes rest with
      | none => simp [hi, hc2]
      | some ivs =>
        cases hd : decodeParams k.dataTypes log.data with
        | none => simp [hi, hd, hc2]
        | some dvs => simp [hi, hd, hc2]
    · rw [not_and_or] at hc
      rcases hc with h | h <;> simp [h]

/-- C4: the log decode chain implements the spec's first-match event
demultiplexer over the nine schemas in declaration order, and a Dispatch
log with its three indexed topics and length-prefixed message data decodes
to the `DispatchFilter` record with the message reconstructed from the
data bytes. -/
theorem mailboxEvents_decode_log_spec :
    (∀ log : RawLog, MailboxEvents.decode_log log = specDecodeLog log) ∧
    MailboxEvents.decode_log
        ⟨[0x769f711d20c679153d382254f59892613b58a97cc876b249134ac25c80f9c814,
          0xAB, 7, 9],
         be256 32 ++ be256 2 ++ padRight32 [104, 105]⟩
      = .ok (.DispatchFilter ⟨0xAB, 7, 9, [104, 105]⟩) := by
  constructor
  · intro log
    rw [MailboxEvents.decode_log, firstSome_eq_find]
    have hpred : (fun k : EventKind => (k.structDecodeLog log).isSome)
        = fun k => k.specMatches log :=
      funext (fun k => structDecodeLog_isSome k log)
    rw [hpred]
    unfold specDecodeLog
    cases hfind : eventDeclarationOrder.find? (fun k => k.specMatches log) with
    | none => simp [hfind]
    | some k => simp [hfind]
  · decide

theorem mailboxEvents_decode_log_spec_witness :
    MailboxEvents.decode_log ⟨[0], []⟩ = specDecodeLog ⟨[0], []⟩ :=
  (mailboxEvents_decode_log_spec).1 ⟨[0], []⟩

theorem firstSome_error_eq {κ α : Type} (f : κ → Option α) (ks : List κ) (e : AbiError)
    (h : firstSome f ks = .error e) : e = .invalidData := by
  induction ks with
  | nil =>
    rw [firstSome] at h
    cases h
    rfl
  | cons k ks ih =>
    rw [firstSome] at h
    cases hf : f k with
    | some v => rw [hf] at h; cases h
    | none => rw [hf] at h; exact ih h

/-- C5 counterexample: a log whose topic-0 is the registered Dispatch hash
with the right number of topics but malformed (empty) data fails with
exactly the same error value, `InvalidData`, as a log whose topic-0 matches
no registered schema — the two failure modes are not distinguishable from
the returned error, contrary to the claim. -/
theorem mailboxEvents_decode_log_error_counterexample :
    (RawLog.mk [0x769f711d20c679153d382254f59892613b58a97cc876b249134ac25c80f9c814,
        0xAB, 7, 9] []).topics.head? = some EventKind.Dispatch.topic0 ∧
    MailboxEvents.decode_log
        ⟨[0x769f711d20c679153d382254f59892613b58a97cc876b249134ac25c80f9c814,
          0xAB, 7, 9], []⟩
      = .error .invalidData ∧
    MailboxEvents.decode_log ⟨[0], []⟩ = .error .invalidData := by
  refine ⟨by decide, by decide, by decide⟩

/-- C5 amended: the event demultiplexer fails with the single error value
`InvalidData` both when no registered schema's topic-0 matches and when a
matching schema's field decode fails; the returned error does not
distinguish the two failure modes. -/
theorem mailboxEvents_decode_log_error_invalidData (log : RawLog) (e : AbiError)
    (h : MailboxEvents.decode_log log = .error e) : e = .invalidData :=
  firstSome_error_eq _ _ e h

theorem mailboxEvents_decode_log_error_invalidData_witness :
    AbiError.invalidData = AbiError.invalidData :=
  mailboxEvents_decode_log_error_invalidData ⟨[0], []⟩ .invalidData (by decide)

/-- C3: both decode chains are total functions of their input: on every
byte sequence and every raw log they return either a decoded value or the
`InvalidData` error — never anything else, and (being plain functions on
byte lists with bounds-checked reads) never a panic or an out-of-bounds
access. -/
theorem decode_total :
    (∀ data : List Nat, (∃ c, MailboxCalls.decode data = .ok c) ∨
      MailboxCalls.decode data = .error .invalidData) ∧
    (∀ log : RawLog, (∃ e, MailboxEvents.decode_log log = .ok e) ∨
      MailboxEvents.decode_log log = .error .invalidData) :=
  ⟨fun _ => firstSome_cases _ _, fun _ => firstSome_cases _ _⟩

set_option maxRecDepth 40000 in
/-- C6: encoding `dispatch(destinationDomain = 7, recipientAddress = 0x00..01,
messageBody = b"hi")` — bytes `[104, 105]` — yields the `Dispatch0Call`
selector followed by five 32-byte words: 7 right-aligned, the recipient word
ending in `0x01`, the offset word 96 pointing just past the three head
slots, the length word 2, and the content left-aligned and zero-padded. -/
theorem dispatch0_encode_words :
    MailboxCalls.encode (.Dispatch0 ⟨7, 1, [104, 105]⟩)
      = [250, 49, 222, 1]
        ++ (List.replicate 31 0 ++ [7])
        ++ (List.replicate 31 0 ++ [1])
        ++ (List.replicate 31 0 ++ [96])
        ++ (List.replicate 31 0 ++ [2])
        ++ ([104, 105] ++ List.replicate 30 0) := by
  decide

/-- Descriptor of any type occurring in the JSON interface, outputs
included (outputs use `bool`, `uint48`, `uint256`, which no call input
uses). -/
inductive AbiType
  | uint (bits : Nat)
  | bool
  | address
  | bytes32
  | dynBytes
deriving DecidableEq

/-- Spec §4.1: legality of a descriptor — integer widths are multiples of 8
up to 256. -/
def AbiType.legal : AbiType → Bool
  | .uint bits => decide (bits % 8 = 0 ∧ 0 < bits ∧ bits ≤ 256)
  | _ => true

/-- Spec §4.1: legality of an input descriptor. -/
def ParamType.legal : ParamType → Bool
  | .uint bits => decide (bits % 8 = 0 ∧ 0 < bits ∧ bits ≤ 256)
  | _ => true

/-- A named function input. -/
structure AbiInput where
  name : String
  ty : ParamType
  deriving DecidableEq

/-- The mutability classes occurring in the JSON interface. -/
inductive Mutability
  | view
  | nonpayable
  | payable
deriving DecidableEq

/-- A raw (pre-registration) function entry, as the JSON carries it. -/
structure RawAbiFunction where
  name : String
  inputs : List AbiInput
  outputs : List AbiType
  mutability : Mutability
  deriving DecidableEq

/-- A registered function schema: the raw entry plus its derived 4-byte
selector (spec §3, §4.4). -/
structure AbiFunction where
  name : String
  inputs : List AbiInput
  outputs : List AbiType
  mutability : Mutability
  selector : List Nat
  deriving DecidableEq

/-- A named event field with its indexed flag. -/
structure AbiEventInput where
  name : String
  ty : ParamType
  indexed : Bool
  deriving DecidableEq

/-- A raw (pre-registration) event entry. -/
structure RawAbiEvent where
  name : String
  inputs : List AbiEventInput
  deriving DecidableEq

/-- A registered event schema: the raw entry plus its 32-byte topic-0 hash
(spec §3, §4.4). -/
structure AbiEvent where
  name : String
  inputs : List AbiEventInput
  topic0 : Nat
  deriving DecidableEq

/-- The parsed interface registry (spec §3 Schema/EventSchema tables). -/
structure Abi where
  constructorInputs : List AbiInput
  functions : List AbiFunction
  events : List AbiEvent
  deriving DecidableEq

/-- Canonical rendering of an input descriptor (spec §4.1). -/
def ParamType.canonicalName : ParamType → String
  | .uint bits => "uint" ++ toString bits
  | .address => "address"
  | .bytes32 => "bytes32"
  | .dynBytes => "bytes"

/-- Canonical signature string of a function or event (spec §4.1). -/
def canonicalSignature (name : String) (tys : List ParamType) : String :=
  name ++ "(" ++ String.intercalate "," (tys.map ParamType.canonicalName) ++ ")"

/-- Modelled from the spec (§1, §6): Keccak-256 is consumed as an opaque
external primitive; its first 4 bytes on the 26 canonical call signatures of
this interface, as the source embeds them in `method_hash`. -/
def keccakSelectorTable : List (String × List Nat) :=
  [("VERSION()", [255, 161, 173, 116]),
   ("defaultHook()", [61, 18, 80, 183]),
   ("defaultIsm()", [110, 95, 81, 110]),
   ("delivered(bytes32)", [228, 149, 241, 212]),
   ("deployedBlock()", [130, 234, 123, 254]),
   ("dispatch(uint32,bytes32,bytes,bytes,address)", [16, 184, 61, 192]),
   ("dispatch(uint32,bytes32,bytes,bytes)", [72, 174, 232, 212]),
   ("dispatch(uint32,bytes32,bytes)", [250, 49, 222, 1]),
   ("initialize(address,address,address,address)", [248, 200, 118, 94]),
   ("latestDispatchedId()", [19, 79, 187, 79]),
   ("localDomain()", [141, 54, 56, 244]),
   ("nonce()", [175, 254, 208, 224]),
   ("owner()", [141, 165, 203, 91]),
   ("process(bytes,bytes)", [124, 57, 209, 48]),
   ("processedAt(bytes32)", [7, 162, 253, 161]),
   ("processor(bytes32)", [93, 31, 229, 169]),
   ("quoteDispatch(uint32,bytes32,bytes,bytes,address)", [129, 210, 234, 149]),
   ("quoteDispatch(uint32,bytes32,bytes)", [156, 66, 189, 24]),
   ("quoteDispatch(uint32,bytes32,bytes,bytes)", [247, 204, 211, 33]),
   ("recipientIsm(address)", [231, 15, 72, 172]),
   ("renounceOwnership()", [113, 80, 24, 166]),
   ("requiredHook()", [214, 208, 138, 9]),
   ("setDefaultHook(address)", [153, 176, 72, 9]),
   ("setDefaultIsm(address)", [247, 148, 104, 122]),
   ("setRequiredHook(address)", [20, 38, 183, 244]),
   ("transferOwnership(address)", [242, 253, 227, 139])]

/-- The 4-byte call selector of a canonical signature (opaque hash,
tabulated). -/
def keccak4 (s : String) : Option (List Nat) := keccakSelectorTable.lookup s

/-- Modelled from the spec (§1, §6): the full Keccak-256 word on the 9
canonical event signatures of this interface. -/
def keccakTopicTable : List (String × Nat) :=
  [("DefaultHookSet(address)",
    0x65a63e5066ee2fcdf9d32a7f1bf7ce71c76066f19d0609dddccd334ab87237d7),
   ("DefaultIsmSet(address)",
    0xa76ad0adbf45318f8633aa0210f711273d50fbb6fef76ed95bbae97082c75daa),
   ("Dispatch(address,uint32,bytes32,bytes)",
    0x769f711d20c679153d382254f59892613b58a97cc876b249134ac25c80f9c814),
   ("DispatchId(bytes32)",
    0x788dbc1b7152732178210e7f4d9d010ef016f9eafbe66786bd7169f56e0c353a),
   ("Initialized(uint8)",
    0x7f26b83ff96e1f2b6a682f133852f6798a09c465da95921460cefb3847402498),
   ("OwnershipTransferred(address,address)",
    0x8be0079c531659141344cd1fd0a4f28419497f9722a3daafe3b4186f6b6457e0),
   ("Process(uint32,bytes32,address)",
    0x0d381c2a574ae8f04e213db7cfb4df8df712cdbd427d9868ffef380660ca6574),
   ("ProcessId(bytes32)",
    0x1cae38cdd3d3919489272725a5ae62a4f48b2989b0dae843d3c279fee18073a9),
   ("RequiredHookSet(address)",
    0x329ec8e2438a73828ecf31a6568d7a91d7b1d79e342b0692914fd053d1a002b1)]

/-- The 32-byte topic-0 word of a canonical event signature (opaque hash,
tabulated). -/
def keccakWord (s : String) : Option Nat := keccakTopicTable.lookup s

/-- Registration of one function schema (spec §4.4 `register`): validate the
descriptors and derive the selector from the canonical signature. -/
def parseFunction (f : RawAbiFunction) : Option AbiFunction :=
  if (f.inputs.all fun i => i.ty.legal) && (f.outputs.all AbiType.legal) then
    (keccak4 (canonicalSignature f.name (f.inputs.map AbiInput.ty))).map
      (fun sel => ⟨f.name, f.inputs, f.outputs, f.mutability, sel⟩)
  else none

/-- Registration of one event schema (spec §4.4). -/
def parseEvent (e : RawAbiEvent) : Option AbiEvent :=
  if e.inputs.all (fun i => i.ty.legal) then
    (keccakWord (canonicalSignature e.name (e.inputs.map fun i => i.ty))).map
      (fun h => ⟨e.name, e.inputs, h⟩)
  else none

/-- Modelled from the spec (§4.4, §6): parsing the fixed interface
definition into the registry.  The JSON decoding itself is delegated to an
external collaborator (`serde_json` in the source); its structural output is
the raw entry list, validated and registered here. -/
def parseAbi (raw : List AbiInput × List RawAbiFunction × List RawAbiEvent) : Option Abi :=
  if raw.1.all (fun i => i.ty.legal) then
    match raw.2.1.mapM parseFunction, raw.2.2.mapM parseEvent with
    | some fns, some evs => some ⟨raw.1, fns, evs⟩
    | _, _ => none
  else none

/-- The structural content of the `__ABI` JSON string of the source
(src line 19): the constructor, the 26 functions and the 9 events, in JSON
order, with their declared argument names, types and mutability. -/
def rawMailboxAbi : List AbiInput × List RawAbiFunction × List RawAbiEvent :=
  ([⟨"_localDomain", .uint 32⟩],
   [⟨"VERSION", [], [.uint 8], .view⟩,
    ⟨"defaultHook", [], [.address], .view⟩,
    ⟨"defaultIsm", [], [.address], .view⟩,
    ⟨"delivered", [⟨"_id", .bytes32⟩], [.bool], .view⟩,
    ⟨"deployedBlock", [], [.uint 256], .view⟩,
    ⟨"dispatch",
     [⟨"destinationDomain", .uint 32⟩, ⟨"recipientAddress", .bytes32⟩,
      ⟨"messageBody", .dynBytes⟩, ⟨"metadata", .dynBytes⟩, ⟨"hook", .address⟩],
     [.bytes32], .payable⟩,
    ⟨"dispatch",
     [⟨"destinationDomain", .uint 32⟩, ⟨"recipientAddress", .bytes32⟩,
      ⟨"messageBody", .dynBytes⟩, ⟨"hookMetadata", .dynBytes⟩],
     [.bytes32], .payable⟩,
    ⟨"dispatch",
     [⟨"_destinationDomain", .uint 32⟩, ⟨"_recipientAddress", .bytes32⟩,
      ⟨"_messageBody", .dynBytes⟩],
     [.bytes32], .payable⟩,
    ⟨"initialize",
     [⟨"_owner", .address⟩, ⟨"_defaultIsm", .address⟩, ⟨"_defaultHook", .address⟩,
      ⟨"_requiredHook", .address⟩],
     [], .nonpayable⟩,
    ⟨"latestDispatchedId", [], [.bytes32], .view⟩,
    ⟨"localDomain", [], [.uint 32], .view⟩,
    ⟨"nonce", [], [.uint 32], .view⟩,
    ⟨"owner", [], [.address], .view⟩,
    ⟨"process", [⟨"_metadata", .dynBytes⟩, ⟨"_message", .dynBytes⟩], [], .payable⟩,
    ⟨"processedAt", [⟨"_id", .bytes32⟩], [.uint 48], .view⟩,
    ⟨"processor", [⟨"_id", .bytes32⟩], [.address], .view⟩,
    ⟨"quoteDispatch",
     [⟨"destinationDomain", .uint 32⟩, ⟨"recipientAddress", .bytes32⟩,
      ⟨"messageBody", .dynBytes⟩, ⟨"metadata", .dynBytes⟩, ⟨"hook", .address⟩],
     [.uint 256], .view⟩,
    ⟨"quoteDispatch",
     [⟨"destinationDomain", .uint 32⟩, ⟨"recipientAddress", .bytes32⟩,
      ⟨"messageBody", .dynBytes⟩],
     [.uint 256], .view⟩,
    ⟨"quoteDispatch",
     [⟨"destinationDomain", .uint 32⟩, ⟨"recipientAddress", .bytes32⟩,
      ⟨"messageBody", .dynBytes⟩, ⟨"defaultHookMetadata", .dynBytes⟩],
     [.uint 256], .view⟩,
    ⟨"recipientIsm", [⟨"_recipient", .address⟩], [.address], .view⟩,
    ⟨"renounceOwnership", [], [], .nonpayable⟩,
    ⟨"requiredHook", [], [.address], .view⟩,
    ⟨"setDefaultHook", [⟨"_hook", .address⟩], [], .nonpayable⟩,
    ⟨"setDefaultIsm", [⟨"_module", .address⟩], [], .nonpayable⟩,
    ⟨"setRequiredHook", [⟨"_hook", .address⟩], [], .nonpayable⟩,
    ⟨"transferOwnership", [⟨"newOwner", .address⟩], [], .nonpayable⟩],
   [⟨"DefaultHookSet", [⟨"hook", .address, true⟩]⟩,
    ⟨"DefaultIsmSet", [⟨"module", .address, true⟩]⟩,
    ⟨"Dispatch",
     [⟨"sender", .address, true⟩, ⟨"destination", .uint 32, true⟩,
      ⟨"recipient", .bytes32, true⟩, ⟨"message", .dynBytes, false⟩]⟩,
    ⟨"DispatchId", [⟨"messageId", .bytes32, true⟩]⟩,
    ⟨"Initialized", [⟨"version", .uint 8, false⟩]⟩,
    ⟨"OwnershipTransferred",
     [⟨"previousOwner", .address, true⟩, ⟨"newOwner", .address, true⟩]⟩,
    ⟨"Process",
     [⟨"origin", .uint 32, true⟩, ⟨"sender", .bytes32, true⟩,
      ⟨"recipient", .address, true⟩]⟩,
    ⟨"ProcessId", [⟨"messageId", .bytes32, true⟩]⟩,
    ⟨"RequiredHookSet", [⟨"hook", .address, true⟩]⟩])

/-- The parsed registry; the `getD` default models the source's
`.expect("invalid abi")` arm, shown unreachable by the parse theorem. -/
def mailboxAbi : Abi := (parseAbi rawMailboxAbi).getD ⟨[], [], []⟩

/-- The initializer closure of the `MAILBOX_ABI` lazy static (src lines
21-24): parse the fixed interface string. -/
def mailboxAbiInit : Unit → Abi :=
  fun _ => (parseAbi rawMailboxAbi).getD ⟨[], [], []⟩

/-- Modelled from the spec (§5): a compute-once, cache-forever lazy cell
(`ethers::contract::Lazy`).  Forcing returns the cached value when present,
otherwise runs the initializer and caches its result. -/
structure LazyCell (α : Type) where
  cache : Option α

/-- Force the cell once, returning the observed value and the new state. -/
def LazyCell.force {α : Type} (init : Unit → α) : LazyCell α → α × LazyCell α
  | ⟨some v⟩ => (v, ⟨some v⟩)
  | ⟨none⟩ => (init (), ⟨some (init ())⟩)

/-- Force the cell `n + 1` times, returning the last observed value and the
final state. -/
def LazyCell.forceN {α : Type} (init : Unit → α) : Nat → LazyCell α → α × LazyCell α
  | 0, s => LazyCell.force init s
  | n + 1, s => LazyCell.forceN init n (LazyCell.force init s).2

/-- The `MAILBOX_ABI` lazy static before first use: nothing cached. -/
def MAILBOX_ABI : LazyCell Abi := ⟨none⟩

theorem forceN_cached {α : Type} (init : Unit → α) (v : α) (n : Nat) :
    LazyCell.forceN init n ⟨some v⟩ = (v, ⟨some v⟩) := by
  induction n with
  | zero => rfl
  | succ n ih =>
    show LazyCell.forceN init n (LazyCell.force init ⟨some v⟩).2 = (v, ⟨some v⟩)
    exact ih

/-- C8: the lazy `MAILBOX_ABI` initializer is idempotent — every evaluation
of the initializer parses the same fixed string to the same registry, and
however many times the cell is forced, every observer sees the one parsed
registry and the cached state never drifts. -/
theorem mailbox_abi_lazy_idempotent :
    (∀ u1 u2 : Unit, mailboxAbiInit u1 = mailboxAbiInit u2) ∧
    ∀ n : Nat, LazyCell.forceN mailboxAbiInit n MAILBOX_ABI
      = (mailboxAbi, ⟨some mailboxAbi⟩) := by
  refine ⟨fun _ _ => rfl, ?_⟩
  intro n
  cases n with
  | zero => rfl
  | succ n =>
    show LazyCell.forceN mailboxAbiInit n (LazyCell.force mailboxAbiInit ⟨none⟩).2
      = (mailboxAbi, ⟨some mailboxAbi⟩)
    exact forceN_cached mailboxAbiInit mailboxAbi n

/-- Selector lookup of `Contract::method_hash`: find the registered function
whose derived selector equals the requested 4 bytes. -/
def methodHash (abi : Abi) (sel : List Nat) : Option AbiFunction :=
  abi.functions.find? (fun f => f.selector = sel)

/-- C10: the fixed `__ABI` interface parses (the `expect("invalid abi")`
branch is unreachable) and the `method_hash` lookup succeeds for each of the
26 wrapper selectors (the `expect("method not found ...")` branch is
unreachable), so every wrapper call is total. -/
theorem mailbox_abi_parse_and_lookup_total :
    parseAbi rawMailboxAbi = some mailboxAbi ∧
    ∀ k : CallKind, (methodHash mailboxAbi k.selector).isSome = true := by
  constructor
  · decide
  · decide

end Mailbox
